import Mathlib

/-!
Shallow embedding of the Bitcoin HMM analysis script (`data.py`).

The pandas / sklearn / hmmlearn numerics are modelled over exact
rationals.  The transcendental pieces — the floating-point square root,
the EM fit of the Gaussian HMM, and the logarithmic scores used by
Viterbi decoding — are kept as explicit function parameters: they are
irrational-valued library numerics, and none of the properties verified
below depend on their values, only on where and to what they are applied.
-/

/-- A pandas/numpy scalar: a finite value (an exact rational in this
model), NaN, or a signed infinity. -/
inductive FloatV where
  | num (q : ℚ)
  | nan
  | inf
  | ninf
deriving DecidableEq, Inhabited, Repr

namespace FloatV

/-- `np.isnan`. -/
def isNan : FloatV → Bool
  | nan => true
  | _ => false

/-- `np.isinf` (true for both signed infinities). -/
def isInf : FloatV → Bool
  | inf => true
  | ninf => true
  | _ => false

/-- Finite (neither NaN nor infinite). -/
def isFinite : FloatV → Bool
  | num _ => true
  | _ => false

/-- The finite value carried; total with junk `0` on non-finite input
(only ever used after a finiteness check has passed). -/
def toQ : FloatV → ℚ
  | num q => q
  | _ => 0

end FloatV

/-- `Series.pct_change()`: entry `t` is `x[t]/x[t-1] - 1`, NaN at `t = 0`;
division by zero follows IEEE float semantics (`q/0` is a signed infinity
for `q ≠ 0` and NaN for `0/0`). -/
def pctChange (l : List ℚ) : List FloatV :=
  (List.range l.length).map (fun t =>
    if t = 0 then .nan
    else if l.getD (t - 1) 0 = 0 then
      (if 0 < l.getD t 0 then .inf else if l.getD t 0 < 0 then .ninf else .nan)
    else .num (l.getD t 0 / l.getD (t - 1) 0 - 1))

/-- Sample variance with one delta degree of freedom (`ddof = 1`), whose
square root is computed by `Series.rolling(...).std()`. -/
def sampleVar (l : List ℚ) : ℚ :=
  let n : ℚ := l.length
  let m := l.sum / n
  (l.map (fun x => (x - m) ^ 2)).sum / (n - 1)

/-- The finite values of a list, `none` as soon as any entry is NaN or
infinite (a pandas rolling aggregation over such a window yields NaN). -/
def numsOf : List FloatV → Option (List ℚ)
  | [] => some []
  | .num q :: rest => (numsOf rest).map (q :: ·)
  | _ => none

/-- `Series.rolling(window=w).std()` with the default `min_periods = w`:
entry `t` is the `ddof = 1` standard deviation of the window
`l[t-w+1..t]` when the full window exists and is finite, NaN otherwise.
`sq` stands for the floating-point square root. -/
def rollingStd (sq : ℚ → ℚ) (w : ℕ) (l : List FloatV) : List FloatV :=
  (List.range l.length).map (fun t =>
    if t + 1 < w then .nan
    else
      match numsOf ((List.range w).map (fun j => l.getD (t + 1 - w + j) .nan)) with
      | some qs => .num (sq (sampleVar qs))
      | none => .nan)

/-- One OHLCV candle record (one CSV row), all cells finite numerics. -/
structure Candle where
  datetime : ℚ
  openP : ℚ
  high : ℚ
  low : ℚ
  close : ℚ
  volume : ℚ
deriving DecidableEq, Inhabited, Repr

/-- The derived columns of one row of the preprocessed frame.  The raw
OHLCV columns are finite rationals, never NaN, so they cannot influence
`dropna` and are elided from the row. -/
structure FeatureRow where
  ret : FloatV
  vol : FloatV
  vchg : FloatV
deriving DecidableEq, Inhabited, Repr

/-- The columns `Returns`, `Volatility`, `Volume_Change` added by
`load_and_preprocess_data` before `dropna`, one row per input row. -/
def featureRows (sq : ℚ → ℚ) (closes volumes : List ℚ) : List FeatureRow :=
  let rets := pctChange closes
  let vols := rollingStd sq 24 rets
  let vchgs := pctChange volumes
  (List.range closes.length).map (fun t =>
    { ret := rets.getD t .nan, vol := vols.getD t .nan, vchg := vchgs.getD t .nan })

/-- A row survives `df.dropna()` when none of its (derived) cells is NaN;
infinities are NOT dropped. -/
def keepRow (r : FeatureRow) : Bool :=
  !r.ret.isNan && !r.vol.isNan && !r.vchg.isNan

/-- `df.dropna()`: drop every row containing a NaN (infinities are kept).
Only the three derived columns can be NaN. -/
def dropnaTable (rows : List FeatureRow) : List FeatureRow :=
  rows.filter keepRow

/-- The exceptions the pipeline can raise. -/
inductive PipeError where
  /-- Python `KeyError` from accessing a missing DataFrame column. -/
  | keyError (c : String)
  /-- `ValueError` for data containing NaN or infinite values: raised
  explicitly by the guard in `train_hmm`, and by sklearn `check_array`
  validation on the decoding path of `predict_states`. -/
  | nanValues
  /-- sklearn `check_array` `ValueError` for a matrix with zero samples
  (`ensure_min_samples=1`), raised inside `StandardScaler.fit_transform`
  and `StandardScaler.transform`. -/
  | zeroSamples
  /-- sklearn `KMeans` `ValueError` (`n_samples` < `n_clusters`): raised
  inside `GaussianHMM.fit`, whose means initialization clusters the
  standardized matrix into `n_components` groups. -/
  | kmeansSmallSample
deriving DecidableEq, Repr

/-- A parsed CSV: a set of named columns of finite numeric cells. -/
structure RawFrame where
  cols : List String
  colData : String → List ℚ

/-- `df[c]`: the column when present, a `KeyError` otherwise. -/
def getColumn (f : RawFrame) (c : String) : Except PipeError (List ℚ) :=
  if c ∈ f.cols then .ok (f.colData c) else .error (.keyError c)

/-- `load_and_preprocess_data`: access and convert the `datetime` column
(the conversion of finite numerics cannot fail and is not modelled
further), derive `Returns`, `Volatility` and `Volume_Change`, and drop
NaN rows.  Column accesses raise `KeyError` in source order: `datetime`
(line 23), then `close` (line 29), then `volume` (line 33); `open`,
`high` and `low` are never accessed. -/
def load_and_preprocess_data (sq : ℚ → ℚ) (f : RawFrame) :
    Except PipeError (List FeatureRow) := do
  let _dt ← getColumn f "datetime"
  let closes ← getColumn f "close"
  let volumes ← getColumn f "volume"
  .ok (dropnaTable (featureRows sq closes volumes))

/-- The frame read from a well-formed OHLCV CSV. -/
def frameOfCandles (cs : List Candle) : RawFrame where
  cols := ["datetime", "open", "high", "low", "close", "volume"]
  colData := fun c =>
    if c = "datetime" then cs.map Candle.datetime
    else if c = "open" then cs.map Candle.openP
    else if c = "high" then cs.map Candle.high
    else if c = "low" then cs.map Candle.low
    else if c = "close" then cs.map Candle.close
    else if c = "volume" then cs.map Candle.volume
    else []

/-- The full-length (pre-`dropna`) derived rows for a candle list. -/
def preDropRows (sq : ℚ → ℚ) (cs : List Candle) : List FeatureRow :=
  featureRows sq (cs.map Candle.close) (cs.map Candle.volume)

/-- The feature table produced for a well-formed candle list. -/
def featureTableOf (sq : ℚ → ℚ) (cs : List Candle) : List FeatureRow :=
  dropnaTable (preDropRows sq cs)

/-- The `close` cell of row `t` (`0` out of range). -/
def closeAt (cs : List Candle) (t : ℕ) : ℚ := (cs.map Candle.close).getD t 0

/-- The `volume` cell of row `t` (`0` out of range). -/
def volumeAt (cs : List Candle) (t : ℕ) : ℚ := (cs.map Candle.volume).getD t 0

/-- The specification's formula for `Returns`:
`close[t]/close[t-1] - 1`. -/
def specReturn (cs : List Candle) (t : ℕ) : ℚ :=
  closeAt cs t / closeAt cs (t - 1) - 1

/-- The specification's formula for `Volume_Change`:
`volume[t]/volume[t-1] - 1`. -/
def specVolumeChange (cs : List Candle) (t : ℕ) : ℚ :=
  volumeAt cs t / volumeAt cs (t - 1) - 1

/-- The specification's formula for `Volatility`: the sample standard
deviation (square root `sq` of the `ddof = 1` variance) of the returns
over the trailing window of the 24 most recent samples ending at `t`,
i.e. of `Returns[t-23], …, Returns[t]`. -/
def specVolatility (sq : ℚ → ℚ) (cs : List Candle) (t : ℕ) : ℚ :=
  sq (sampleVar ((List.range 24).map (fun j => specReturn cs (t - 23 + j))))

/-- A fitted `StandardScaler`: per-column mean and scale. -/
structure Scaler where
  mean : List ℚ
  scale : List ℚ
deriving DecidableEq, Repr

/-- Column `j` of a row-major matrix. -/
def colVals (X : List (List ℚ)) (j : ℕ) : List ℚ := X.map (fun r => r.getD j 0)

/-- Per-column mean over the rows. -/
def colMean (X : List (List ℚ)) (j : ℕ) : ℚ := (colVals X j).sum / (X.length : ℚ)

/-- Per-column population variance (`ddof = 0`), as `StandardScaler`
uses. -/
def colVar (X : List (List ℚ)) (j : ℕ) : ℚ :=
  ((colVals X j).map (fun x => (x - colMean X j) ^ 2)).sum / (X.length : ℚ)

/-- `StandardScaler.fit`: the scale of a column is the square root of its
population variance, except that a zero variance is mapped to scale `1`
(sklearn `_handle_zeros_in_scale`), so a constant column is centred to
zeros rather than divided by zero. -/
def fitScaler (sq : ℚ → ℚ) (X : List (List ℚ)) : Scaler :=
  let nf := (X.getD 0 []).length
  { mean := (List.range nf).map (colMean X)
    scale := (List.range nf).map (fun j =>
      if colVar X j = 0 then 1 else sq (colVar X j)) }

/-- `StandardScaler.transform`: `(x - mean) / scale`, column-wise. -/
def transformScaler (s : Scaler) (X : List (List ℚ)) : List (List ℚ) :=
  X.map (fun r => (List.range r.length).map (fun j =>
    (r.getD j 0 - s.mean.getD j 0) / s.scale.getD j 0))

/-- The parameters of a fitted `hmm.GaussianHMM`. -/
structure GaussianHMM where
  nComponents : ℕ
  startprob : List ℚ
  transmat : List (List ℚ)
  means : List (List ℚ)
  covars : List (List (List ℚ))
deriving DecidableEq, Inhabited, Repr

/-- `data[features].values` for `features = [Returns, Volatility,
Volume_Change]`. -/
def matrixOf (data : List FeatureRow) : List (List FloatV) :=
  data.map (fun r => [r.ret, r.vol, r.vchg])

/-- `np.any(np.isnan(X)) or np.any(np.isinf(X))`. -/
def hasNanOrInf (X : List (List FloatV)) : Bool :=
  X.any (fun r => r.any (fun v => v.isNan || v.isInf))

/-- The feature matrix as rationals (meaningful once the finiteness
check has passed). -/
def matrixQ (data : List FeatureRow) : List (List ℚ) :=
  (matrixOf data).map (fun r => r.map FloatV.toQ)

/-- The standardized matrix the model is fitted on
(`scaler.fit_transform(X)`). -/
def trainScaledMatrix (sq : ℚ → ℚ) (data : List FeatureRow) : List (List ℚ) :=
  transformScaler (fitScaler sq (matrixQ data)) (matrixQ data)

/-- `train_hmm`: extract the three feature columns, reject NaN/infinite
values explicitly before anything else, standardize (sklearn rejects an
empty matrix there), and fit a `GaussianHMM` with `random_state = 42` on
the standardized matrix, returning the model together with the fitted
scaler.  `model.fit` begins with a KMeans means-initialization which
raises when the matrix has fewer rows than `n_components` (the script
always passes a positive count, the default 4); past that check the EM
iteration itself is the parameter `fit` (arguments: matrix,
`n_components`, `random_state`): it iterates in floating point without
further input-reachable failures, and none of the verified properties
depend on the fitted values, only on what the fit is applied to. -/
def train_hmm (sq : ℚ → ℚ) (fit : List (List ℚ) → ℕ → ℕ → GaussianHMM)
    (data : List FeatureRow) (nComponents : ℕ := 4) :
    Except PipeError (GaussianHMM × Scaler) :=
  let X := matrixOf data
  if hasNanOrInf X then .error .nanValues
  else if X.length = 0 then .error .zeroSamples
  else if X.length < nComponents then .error .kmeansSmallSample
  else .ok (fit (trainScaledMatrix sq data) nComponents 42,
            fitScaler sq (matrixQ data))

/-- `np.argmax`: index of the first maximal entry (`0` on an empty
list). -/
def argmaxIdx (l : List ℚ) : ℕ :=
  (List.range l.length).foldl (fun b i => if l.getD b 0 < l.getD i 0 then i else b) 0

/-- The maximum of a list (its head on an empty candidate set). -/
def listMax (l : List ℚ) : ℚ := l.foldl max (l.getD 0 0)

/-- One Viterbi step: from the previous score vector `delta`, the new
score vector and the back-pointer row (best previous state per current
state). -/
def viterbiStep (K : ℕ) (la : ℕ → ℕ → ℚ) (lbRow : ℕ → ℚ) (delta : List ℚ) :
    List ℚ × List ℕ :=
  ((List.range K).map (fun k =>
      listMax ((List.range K).map (fun j => delta.getD j 0 + la j k)) + lbRow k),
   (List.range K).map (fun k =>
      argmaxIdx ((List.range K).map (fun j => delta.getD j 0 + la j k))))

/-- The Viterbi forward pass over the remaining observations,
accumulating the score vector and the back-pointer rows. -/
def viterbiForward (K : ℕ) (la : ℕ → ℕ → ℚ) (lb : List ℚ → ℕ → ℚ)
    (init : List ℚ × List (List ℕ)) (obs : List (List ℚ)) :
    List ℚ × List (List ℕ) :=
  obs.foldl (fun acc o =>
    let st := viterbiStep K la (lb o) acc.1
    (st.1, acc.2 ++ [st.2])) init

/-- The Viterbi backward pass: follow the back-pointer rows from the
final state. -/
def backtrack (psis : List (List ℕ)) (last : ℕ) : List ℕ :=
  (psis.foldr (fun row acc => (row.getD acc.1 0, row.getD acc.1 0 :: acc.2))
    (last, [last])).2

/-- Viterbi decoding (`model.predict`): maximum-likelihood state path
under the log scores `lpi` (start), `la` (transition) and `lb`
(emission). -/
def viterbi (K : ℕ) (lpi : ℕ → ℚ) (la : ℕ → ℕ → ℚ) (lb : List ℚ → ℕ → ℚ) :
    List (List ℚ) → List ℕ
  | [] => []
  | o :: rest =>
    let fw := viterbiForward K la lb
      ((List.range K).map (fun k => lpi k + lb o k), []) rest
    backtrack fw.2 (argmaxIdx fw.1)

/-- The standardized matrix decoded by `predict_states`
(`scaler.transform(X)`). -/
def predictScaledMatrix (s : Scaler) (data : List FeatureRow) : List (List ℚ) :=
  transformScaler s (matrixQ data)

/-- `predict_states`: standardize the feature matrix with the given
(already fitted) scaler and decode with the model.  sklearn
`check_array` inside `transform` rejects NaN or infinite values and an
empty matrix.  `lpi`, `la`, `lb` stand for the floating-point logarithms
of the model's start, transition and Gaussian emission likelihoods; none
of the verified properties depend on their values. -/
def predict_states (lpi : GaussianHMM → ℕ → ℚ) (la : GaussianHMM → ℕ → ℕ → ℚ)
    (lb : GaussianHMM → List ℚ → ℕ → ℚ) (model : GaussianHMM)
    (data : List FeatureRow) (s : Scaler) : Except PipeError (List ℕ) :=
  let X := matrixOf data
  if hasNanOrInf X then .error .nanValues
  else if X.length = 0 then .error .zeroSamples
  else .ok (viterbi model.nComponents (lpi model) (la model) (lb model)
    (predictScaledMatrix s data))

/-- Observable output of `analyze_states`: for each state `k` below the
AMBIENT GLOBAL model's `n_components` — the source reads the
module-level variable `model`, not a parameter — the rows assigned to
state `k` (the printed `describe` statistics and period count are
functions of this list). -/
def analyze_states (globalModel : GaussianHMM) (data : List FeatureRow)
    (states : List ℕ) : List (ℕ × List FeatureRow) :=
  (List.range globalModel.nComponents).map (fun k =>
    (k, ((data.zip states).filter (fun p => p.2 = k)).map Prod.fst))

/-- Observable output of the state-overlay loop of `plot_results`: for
each state `k` below the ambient global model's `n_components`, the
boolean mask `states == k` drawn by `fill_between` (the
model-independent price and returns panels are elided). -/
def plot_results (globalModel : GaussianHMM) (data : List FeatureRow)
    (states : List ℕ) : List (ℕ × List Bool) :=
  (List.range globalModel.nComponents).map (fun k =>
    (k, states.map (fun s => s = k)))

/-- A concrete EM fit instance, used to evaluate the pipeline at
concrete inputs (the verified properties hold for every fit). -/
def trivialFit : List (List ℚ) → ℕ → ℕ → GaussianHMM :=
  fun _ K _ => { nComponents := K, startprob := [], transmat := [],
                 means := [], covars := [] }

/-- A candle with `open = high = low = close = c` and volume `v`. -/
def constCandle (c v : ℚ) : Candle :=
  { datetime := 0, openP := c, high := c, low := c, close := c, volume := v }

/-- `n` identical candles with unit price and unit volume. -/
def csConst (n : ℕ) : List Candle := (List.range n).map (fun _ => constCandle 1 1)

/-- 26 candles with constant unit close and volume 1 everywhere except a
single zero volume at index 24: every OHLCV cell is a finite number. -/
def csVolZero : List Candle :=
  ((List.range 24).map (fun _ => constCandle 1 1)) ++ [constCandle 1 0, constCandle 1 1]

/-- 26 candles with constant close and constant volume 5: the
`Volume_Change` column of the resulting feature table is identically
zero, hence of zero variance. -/
def csConstVol : List Candle := (List.range 26).map (fun _ => constCandle 1 5)

/-- A frame lacking the `open`, `high` and `low` columns. -/
def frameNoOpen : RawFrame where
  cols := ["datetime", "close", "volume"]
  colData := fun c =>
    if c = "datetime" then [0, 1] else if c = "close" then [1, 2] else [1, 1]

/-- A frame lacking the `datetime` column. -/
def frameNoDatetime : RawFrame where
  cols := ["open", "high", "low", "close", "volume"]
  colData := fun _ => [1]

/-- A frame lacking the `close` column. -/
def frameNoClose : RawFrame where
  cols := ["datetime", "open", "high", "low", "volume"]
  colData := fun _ => [1]

/-- A frame lacking the `volume` column. -/
def frameNoVolume : RawFrame where
  cols := ["datetime", "open", "high", "low", "close"]
  colData := fun _ => [1]

/-- A one-row feature table carrying a NaN. -/
def dataWithNan : List FeatureRow := [{ ret := .nan, vol := .num 0, vchg := .num 0 }]

/-! ### Basic list lemmas -/

theorem getD_range_map {α : Type} (f : ℕ → α) (d : α) {n t : ℕ} (h : t < n) :
    ((List.range n).map f).getD t d = f t := by
  have hl : t < ((List.range n).map f).length := by simp [h]
  rw [List.getD_eq_getElem _ _ hl]
  simp

theorem length_pctChange (l : List ℚ) : (pctChange l).length = l.length := by
  simp [pctChange]

theorem length_rollingStd (sq : ℚ → ℚ) (w : ℕ) (l : List FloatV) :
    (rollingStd sq w l).length = l.length := by
  simp [rollingStd]

theorem length_featureRows (sq : ℚ → ℚ) (closes volumes : List ℚ) :
    (featureRows sq closes volumes).length = closes.length := by
  simp [featureRows]

theorem numsOf_map_num (l : List ℚ) : numsOf (l.map FloatV.num) = some l := by
  induction l with
  | nil => rfl
  | cons x xs ih => simp [numsOf, ih]

/-! ### Column characterizations -/

theorem pctChange_getD_zero (l : List ℚ) (h : 0 < l.length) (d : FloatV) :
    (pctChange l).getD 0 d = .nan := by
  unfold pctChange
  rw [getD_range_map _ _ h]
  simp

theorem pctChange_getD_num (l : List ℚ) {t : ℕ} (h1 : 0 < t) (h2 : t < l.length)
    (hne : l.getD (t - 1) 0 ≠ 0) (d : FloatV) :
    (pctChange l).getD t d = .num (l.getD t 0 / l.getD (t - 1) 0 - 1) := by
  unfold pctChange
  rw [getD_range_map _ _ h2, if_neg (by omega), if_neg hne]

theorem rollingStd_getD (sq : ℚ → ℚ) (w : ℕ) (l : List FloatV) {t : ℕ}
    (h : t < l.length) (d : FloatV) :
    (rollingStd sq w l).getD t d =
      if t + 1 < w then .nan
      else
        match numsOf ((List.range w).map (fun j => l.getD (t + 1 - w + j) .nan)) with
        | some qs => .num (sq (sampleVar qs))
        | none => .nan := by
  unfold rollingStd
  rw [getD_range_map _ _ h]

theorem featureRows_getD (sq : ℚ → ℚ) (closes volumes : List ℚ) {t : ℕ}
    (h : t < closes.length) (d : FeatureRow) :
    (featureRows sq closes volumes).getD t d =
      { ret := (pctChange closes).getD t .nan
        vol := (rollingStd sq 24 (pctChange closes)).getD t .nan
        vchg := (pctChange volumes).getD t .nan } := by
  unfold featureRows
  rw [getD_range_map _ _ h]

theorem rollingStd24_getD_nan_of_lt (sq : ℚ → ℚ) (closes : List ℚ) {t : ℕ}
    (h24 : t < 24) (ht : t < closes.length) :
    (rollingStd sq 24 (pctChange closes)).getD t .nan = .nan := by
  have hl : t < (pctChange closes).length := by rw [length_pctChange]; exact ht
  rw [rollingStd_getD _ _ _ hl]
  by_cases h : t + 1 < 24
  · simp [h]
  · have ht23 : t = 23 := by omega
    subst ht23
    rw [if_neg h]
    rw [List.range_succ_eq_map, List.map_cons]
    have h0 : (pctChange closes).getD (23 + 1 - 24 + 0) .nan = .nan := by
      have hi : (23 : ℕ) + 1 - 24 + 0 = 0 := by norm_num
      rw [hi]
      exact pctChange_getD_zero closes (by omega) _
    rw [h0]
    rfl

theorem rollingStd24_getD_num (sq : ℚ → ℚ) (closes : List ℚ) {t : ℕ}
    (h24 : 24 ≤ t) (ht : t < closes.length)
    (hc : ∀ i, i < t → closes.getD i 0 ≠ 0) :
    (rollingStd sq 24 (pctChange closes)).getD t .nan =
      .num (sq (sampleVar ((List.range 24).map (fun j =>
        closes.getD (t - 23 + j) 0 / closes.getD (t - 24 + j) 0 - 1)))) := by
  have hl : t < (pctChange closes).length := by rw [length_pctChange]; exact ht
  rw [rollingStd_getD _ _ _ hl, if_neg (by omega)]
  have hw : (List.range 24).map (fun j => (pctChange closes).getD (t + 1 - 24 + j) .nan)
      = ((List.range 24).map (fun j =>
          closes.getD (t - 23 + j) 0 / closes.getD (t - 24 + j) 0 - 1)).map FloatV.num := by
    rw [List.map_map]
    apply List.map_congr_left
    intro j hj
    have hj24 : j < 24 := List.mem_range.mp hj
    have hidx : t + 1 - 24 + j = t - 23 + j := by omega
    simp only [Function.comp_apply]
    rw [hidx]
    have h1 : 0 < t - 23 + j := by omega
    have h2 : t - 23 + j < closes.length := by omega
    have h3 : t - 23 + j - 1 = t - 24 + j := by omega
    rw [pctChange_getD_num closes h1 h2 (by rw [h3]; exact hc _ (by omega)) _, h3]
  rw [hw, numsOf_map_num]

theorem mapField_getD_ne {f : Candle → ℚ} (cs : List Candle)
    (hc : ∀ c ∈ cs, f c ≠ 0) {i : ℕ} (hi : i < cs.length) :
    (cs.map f).getD i 0 ≠ 0 := by
  have hi' : i < (cs.map f).length := by simpa using hi
  rw [List.getD_eq_getElem _ _ hi', List.getElem_map]
  exact hc _ (List.getElem_mem (by simpa using hi))

theorem countP_range_ge (n c : ℕ) :
    (List.range n).countP (fun t => decide (c ≤ t)) = n - c := by
  induction n with
  | zero => simp
  | succ n ih =>
    rw [List.range_succ, List.countP_append, ih, List.countP_cons, List.countP_nil]
    by_cases h : c ≤ n
    · rw [if_pos (by simpa using h)]
      omega
    · rw [if_neg (by simpa using h)]
      omega

theorem length_preDropRows (sq : ℚ → ℚ) (cs : List Candle) :
    (preDropRows sq cs).length = cs.length := by
  simp [preDropRows, length_featureRows]

theorem preDrop_ret (sq : ℚ → ℚ) (cs : List Candle) {t : ℕ} (h1 : 0 < t)
    (ht : t < cs.length) (hne : closeAt cs (t - 1) ≠ 0) (d : FeatureRow) :
    ((preDropRows sq cs).getD t d).ret = .num (specReturn cs t) := by
  have ht' : t < (cs.map Candle.close).length := by simpa using ht
  unfold preDropRows
  rw [featureRows_getD _ _ _ ht' d]
  show (pctChange (cs.map Candle.close)).getD t .nan = _
  rw [pctChange_getD_num _ h1 ht' hne]
  rfl

theorem preDrop_ret_nan (sq : ℚ → ℚ) (cs : List Candle) (h : 0 < cs.length)
    (d : FeatureRow) : ((preDropRows sq cs).getD 0 d).ret = .nan := by
  have ht' : (0 : ℕ) < (cs.map Candle.close).length := by simpa using h
  unfold preDropRows
  rw [featureRows_getD _ _ _ ht' d]
  exact pctChange_getD_zero _ ht' _

theorem preDrop_vchg (sq : ℚ → ℚ) (cs : List Candle) {t : ℕ} (h1 : 0 < t)
    (ht : t < cs.length) (hne : volumeAt cs (t - 1) ≠ 0) (d : FeatureRow) :
    ((preDropRows sq cs).getD t d).vchg = .num (specVolumeChange cs t) := by
  have ht' : t < (cs.map Candle.close).length := by simpa using ht
  have htv : t < (cs.map Candle.volume).length := by simpa using ht
  unfold preDropRows
  rw [featureRows_getD _ _ _ ht' d]
  show (pctChange (cs.map Candle.volume)).getD t .nan = _
  rw [pctChange_getD_num _ h1 htv hne]
  rfl

theorem preDrop_vchg_nan (sq : ℚ → ℚ) (cs : List Candle) (h : 0 < cs.length)
    (d : FeatureRow) : ((preDropRows sq cs).getD 0 d).vchg = .nan := by
  have ht' : (0 : ℕ) < (cs.map Candle.close).length := by simpa using h
  have htv : (0 : ℕ) < (cs.map Candle.volume).length := by simpa using h
  unfold preDropRows
  rw [featureRows_getD _ _ _ ht' d]
  exact pctChange_getD_zero _ htv _

theorem preDrop_vol_nan (sq : ℚ → ℚ) (cs : List Candle) {t : ℕ} (h24 : t < 24)
    (ht : t < cs.length) (d : FeatureRow) :
    ((preDropRows sq cs).getD t d).vol = .nan := by
  have ht' : t < (cs.map Candle.close).length := by simpa using ht
  unfold preDropRows
  rw [featureRows_getD _ _ _ ht' d]
  exact rollingStd24_getD_nan_of_lt sq _ h24 ht'

theorem preDrop_vol_num (sq : ℚ → ℚ) (cs : List Candle) {t : ℕ} (h24 : 24 ≤ t)
    (ht : t < cs.length) (hc : ∀ i, i < t → closeAt cs i ≠ 0) (d : FeatureRow) :
    ((preDropRows sq cs).getD t d).vol = .num (specVolatility sq cs t) := by
  have ht' : t < (cs.map Candle.close).length := by simpa using ht
  unfold preDropRows
  rw [featureRows_getD _ _ _ ht' d]
  show (rollingStd sq 24 (pctChange (cs.map Candle.close))).getD t .nan = _
  rw [rollingStd24_getD_num sq _ h24 ht' (fun i hi => hc i hi)]
  refine congrArg (fun ll => FloatV.num (sq (sampleVar ll))) ?_
  apply List.map_congr_left
  intro j hj
  have hj24 : j < 24 := List.mem_range.mp hj
  unfold specReturn closeAt
  have h3 : t - 23 + j - 1 = t - 24 + j := by omega
  rw [h3]

theorem self_eq_map_getD_range {α : Type} (l : List α) (d : α) :
    (List.range l.length).map (fun t => l.getD t d) = l := by
  apply List.ext_getElem
  · simp
  · intro i h1 h2
    rw [List.getElem_map, List.getElem_range]
    exact List.getD_eq_getElem l d h2

theorem countP_by_index {α : Type} (p : α → Bool) (l : List α) (d : α)
    (q : ℕ → Bool) (h : ∀ t, t < l.length → p (l.getD t d) = q t) :
    l.countP p = (List.range l.length).countP q := by
  conv_lhs => rw [← self_eq_map_getD_range l d]
  rw [List.countP_map]
  apply List.countP_congr
  intro t ht
  have ht' : t < l.length := List.mem_range.mp ht
  simp only [Function.comp_apply]
  rw [h t ht']

theorem keepRow_preDrop (sq : ℚ → ℚ) (cs : List Candle)
    (hc : ∀ c ∈ cs, c.close ≠ 0) (hv : ∀ c ∈ cs, c.volume ≠ 0) {t : ℕ}
    (ht : t < cs.length) (d : FeatureRow) :
    keepRow ((preDropRows sq cs).getD t d) = decide (24 ≤ t) := by
  by_cases h24 : 24 ≤ t
  · have hcA : ∀ i, i < t → closeAt cs i ≠ 0 :=
      fun i hi => mapField_getD_ne cs hc (by omega)
    have hr := preDrop_ret sq cs (by omega) ht
      (mapField_getD_ne cs hc (by omega)) d
    have hvo := preDrop_vol_num sq cs h24 ht hcA d
    have hg := preDrop_vchg sq cs (by omega) ht
      (mapField_getD_ne cs hv (by omega)) d
    unfold keepRow
    rw [hr, hvo, hg]
    simp [FloatV.isNan, h24]
  · unfold keepRow
    rw [preDrop_vol_nan sq cs (by omega) ht d]
    simp [FloatV.isNan, h24]

theorem featureTableOf_length (sq : ℚ → ℚ) (cs : List Candle)
    (hc : ∀ c ∈ cs, c.close ≠ 0) (hv : ∀ c ∈ cs, c.volume ≠ 0) :
    (featureTableOf sq cs).length = cs.length - 24 := by
  unfold featureTableOf dropnaTable
  rw [← List.countP_eq_length_filter]
  rw [countP_by_index keepRow _ default (fun t => decide (24 ≤ t))
    (fun t ht => keepRow_preDrop sq cs hc hv (by rwa [length_preDropRows] at ht) default)]
  rw [length_preDropRows]
  exact countP_range_ge cs.length 24

theorem mem_featureTableOf_finite (sq : ℚ → ℚ) (cs : List Candle)
    (hc : ∀ c ∈ cs, c.close ≠ 0) (hv : ∀ c ∈ cs, c.volume ≠ 0) :
    ∀ r ∈ featureTableOf sq cs,
      r.ret.isFinite = true ∧ r.vol.isFinite = true ∧ r.vchg.isFinite = true := by
  intro r hr
  unfold featureTableOf dropnaTable at hr
  obtain ⟨hmem, hkeep⟩ := List.mem_filter.mp hr
  obtain ⟨t, htl, rfl⟩ := List.mem_iff_getElem.mp hmem
  have ht : t < cs.length := by rwa [length_preDropRows] at htl
  rw [← List.getD_eq_getElem _ default htl] at hkeep ⊢
  by_cases h24 : 24 ≤ t
  · have hcA : ∀ i, i < t → closeAt cs i ≠ 0 :=
      fun i hi => mapField_getD_ne cs hc (by omega)
    rw [preDrop_ret sq cs (by omega) ht (mapField_getD_ne cs hc (by omega)) default,
      preDrop_vol_num sq cs h24 ht hcA default,
      preDrop_vchg sq cs (by omega) ht (mapField_getD_ne cs hv (by omega)) default]
    exact ⟨rfl, rfl, rfl⟩
  · exfalso
    rw [keepRow_preDrop sq cs hc hv ht default] at hkeep
    simp [h24] at hkeep

theorem featureTableOf_eq_nil (sq : ℚ → ℚ) (cs : List Candle)
    (h : cs.length ≤ 24) : featureTableOf sq cs = [] := by
  unfold featureTableOf dropnaTable
  rw [List.filter_eq_nil_iff]
  intro a ha
  obtain ⟨t, htl, rfl⟩ := List.mem_iff_getElem.mp ha
  have ht : t < cs.length := by rwa [length_preDropRows] at htl
  rw [← List.getD_eq_getElem _ default htl]
  unfold keepRow
  rw [preDrop_vol_nan sq cs (by omega) ht default]
  simp [FloatV.isNan]

theorem load_frameOfCandles (sq : ℚ → ℚ) (cs : List Candle) :
    load_and_preprocess_data sq (frameOfCandles cs) = .ok (featureTableOf sq cs) := rfl

theorem length_matrixOf (data : List FeatureRow) :
    (matrixOf data).length = data.length := by
  simp [matrixOf]

theorem train_hmm_eq_ok (sq : ℚ → ℚ) (fit : List (List ℚ) → ℕ → ℕ → GaussianHMM)
    (data : List FeatureRow) (K : ℕ)
    (hfin : hasNanOrInf (matrixOf data) = false) (hne : data ≠ [])
    (hK : K ≤ data.length) :
    train_hmm sq fit data K =
      .ok (fit (trainScaledMatrix sq data) K 42, fitScaler sq (matrixQ data)) := by
  simp only [train_hmm]
  have h1 : ¬(hasNanOrInf (matrixOf data) = true) := by simp [hfin]
  have h2 : ¬((matrixOf data).length = 0) := by
    rw [length_matrixOf]
    simpa using hne
  have h3 : ¬((matrixOf data).length < K) := by
    rw [length_matrixOf]
    omega
  rw [if_neg h1, if_neg h2, if_neg h3]

theorem train_hmm_nan (sq : ℚ → ℚ) (fit : List (List ℚ) → ℕ → ℕ → GaussianHMM)
    (data : List FeatureRow) (K : ℕ)
    (hfin : hasNanOrInf (matrixOf data) = true) :
    train_hmm sq fit data K = .error .nanValues := by
  simp only [train_hmm]
  rw [if_pos hfin]

theorem train_hmm_not_nan (sq : ℚ → ℚ) (fit : List (List ℚ) → ℕ → ℕ → GaussianHMM)
    (data : List FeatureRow) (K : ℕ)
    (hfin : hasNanOrInf (matrixOf data) = false) :
    train_hmm sq fit data K ≠ .error .nanValues := by
  simp only [train_hmm]
  rw [if_neg (by simp [hfin])]
  by_cases h2 : (matrixOf data).length = 0
  · rw [if_pos h2]
    intro h
    exact PipeError.noConfusion (Except.error.inj h)
  · rw [if_neg h2]
    by_cases h3 : (matrixOf data).length < K
    · rw [if_pos h3]
      intro h
      exact PipeError.noConfusion (Except.error.inj h)
    · rw [if_neg h3]
      intro h
      exact Except.noConfusion h

theorem train_hmm_nil (sq : ℚ → ℚ) (fit : List (List ℚ) → ℕ → ℕ → GaussianHMM)
    (K : ℕ) : train_hmm sq fit [] K = .error .zeroSamples := rfl

theorem train_hmm_ok_inv (sq : ℚ → ℚ) (fit : List (List ℚ) → ℕ → ℕ → GaussianHMM)
    (data : List FeatureRow) (K : ℕ) (m : GaussianHMM) (s : Scaler)
    (h : train_hmm sq fit data K = .ok (m, s)) :
    m = fit (trainScaledMatrix sq data) K 42 ∧ s = fitScaler sq (matrixQ data) := by
  simp only [train_hmm] at h
  by_cases h1 : hasNanOrInf (matrixOf data) = true
  · rw [if_pos h1] at h
    exact Except.noConfusion h
  · rw [if_neg h1] at h
    by_cases h2 : (matrixOf data).length = 0
    · rw [if_pos h2] at h
      exact Except.noConfusion h
    · rw [if_neg h2] at h
      by_cases h3 : (matrixOf data).length < K
      · rw [if_pos h3] at h
        exact Except.noConfusion h
      · rw [if_neg h3] at h
        have hp := Except.ok.inj h
        injection hp with hm hs
        exact ⟨hm.symm, hs.symm⟩

theorem fitScaler_scale_of_zero_var (sq : ℚ → ℚ) (X : List (List ℚ)) {j : ℕ}
    (hj : j < (X.getD 0 []).length) (hvar : colVar X j = 0) :
    (fitScaler sq X).scale.getD j 0 = 1 := by
  have hsc : (fitScaler sq X).scale = (List.range (X.getD 0 []).length).map
      (fun j => if colVar X j = 0 then 1 else sq (colVar X j)) := rfl
  rw [hsc, getD_range_map _ _ hj, if_pos hvar]

/-! ### Viterbi decoding: length and range of the state path -/

theorem argmaxIdx_lt (l : List ℚ) (h : 0 < l.length) : argmaxIdx l < l.length := by
  unfold argmaxIdx
  have key : ∀ (is : List ℕ) (b : ℕ), b < l.length → (∀ i ∈ is, i < l.length) →
      (is.foldl (fun b i => if l.getD b 0 < l.getD i 0 then i else b) b) < l.length := by
    intro is
    induction is with
    | nil => intro b hb _; exact hb
    | cons x xs ih =>
      intro b hb hall
      simp only [List.foldl_cons]
      apply ih
      · by_cases hx : l.getD b 0 < l.getD x 0
        · rw [if_pos hx]; exact hall x (by simp)
        · rw [if_neg hx]; exact hb
      · intro i hi; exact hall i (by simp [hi])
  exact key _ 0 h (fun i hi => List.mem_range.mp hi)

theorem psiRow_getD_lt (K : ℕ) (hK : 0 < K) (la : ℕ → ℕ → ℚ) (lbRow : ℕ → ℚ)
    (delta : List ℚ) (i : ℕ) :
    (viterbiStep K la lbRow delta).2.getD i 0 < K := by
  have h2 : (viterbiStep K la lbRow delta).2 = (List.range K).map (fun k =>
      argmaxIdx ((List.range K).map (fun j => delta.getD j 0 + la j k))) := rfl
  rw [h2]
  by_cases hi : i < K
  · rw [getD_range_map _ _ hi]
    have hlen : ((List.range K).map
        (fun j => delta.getD j 0 + la j i)).length = K := by simp
    have := argmaxIdx_lt ((List.range K).map (fun j => delta.getD j 0 + la j i))
      (by rw [hlen]; exact hK)
    rwa [hlen] at this
  · rw [List.getD_eq_default]
    · exact hK
    · simpa using hi

theorem deltaRow_length (K : ℕ) (la : ℕ → ℕ → ℚ) (lbRow : ℕ → ℚ)
    (delta : List ℚ) : (viterbiStep K la lbRow delta).1.length = K := by
  have h1 : (viterbiStep K la lbRow delta).1 = (List.range K).map (fun k =>
      listMax ((List.range K).map (fun j => delta.getD j 0 + la j k)) + lbRow k) := rfl
  rw [h1]
  simp

theorem viterbiForward_spec (K : ℕ) (hK : 0 < K) (la : ℕ → ℕ → ℚ)
    (lb : List ℚ → ℕ → ℚ) (obs : List (List ℚ)) :
    ∀ (init : List ℚ × List (List ℕ)),
      (∀ row ∈ init.2, ∀ i : ℕ, row.getD i 0 < K) →
      ((viterbiForward K la lb init obs).1.length = K ∨ obs = []) ∧
      (viterbiForward K la lb init obs).2.length = init.2.length + obs.length ∧
      (∀ row ∈ (viterbiForward K la lb init obs).2, ∀ i : ℕ, row.getD i 0 < K) := by
  induction obs with
  | nil =>
    intro init h2
    refine ⟨Or.inr rfl, by simp [viterbiForward], ?_⟩
    simpa [viterbiForward] using h2
  | cons o rest ih =>
    intro init h2
    have hstep : viterbiForward K la lb init (o :: rest) =
        viterbiForward K la lb
          ((viterbiStep K la (lb o) init.1).1,
            init.2 ++ [(viterbiStep K la (lb o) init.1).2]) rest := rfl
    rw [hstep]
    have hrows : ∀ row ∈ init.2 ++ [(viterbiStep K la (lb o) init.1).2],
        ∀ i : ℕ, row.getD i 0 < K := by
      intro row hrow i
      rcases List.mem_append.mp hrow with hl | hr
      · exact h2 row hl i
      · have : row = (viterbiStep K la (lb o) init.1).2 := by simpa using hr
        rw [this]
        exact psiRow_getD_lt K hK la (lb o) init.1 i
    obtain ⟨hA, hB, hC⟩ := ih ((viterbiStep K la (lb o) init.1).1,
      init.2 ++ [(viterbiStep K la (lb o) init.1).2]) hrows
    refine ⟨?_, ?_, hC⟩
    · rcases hA with h | h
      · exact Or.inl h
      · subst h
        left
        exact deltaRow_length K la (lb o) init.1
    · rw [hB]
      simp
      omega

theorem backtrack_length (psis : List (List ℕ)) (last : ℕ) :
    (backtrack psis last).length = psis.length + 1 := by
  unfold backtrack
  suffices h : ∀ (init : ℕ × List ℕ),
      ((psis.foldr (fun row acc => (row.getD acc.1 0, row.getD acc.1 0 :: acc.2))
        init).2).length = psis.length + init.2.length by
    simpa using h (last, [last])
  intro init
  induction psis with
  | nil => simp
  | cons r rs ih =>
    simp only [List.foldr_cons, List.length_cons, ih, List.length_cons]
    omega

theorem backtrack_foldr_lt (K : ℕ) (psis : List (List ℕ)) :
    ∀ (init : ℕ × List ℕ), init.1 < K → (∀ x ∈ init.2, x < K) →
      (∀ row ∈ psis, ∀ i : ℕ, row.getD i 0 < K) →
      ((psis.foldr (fun row acc => (row.getD acc.1 0, row.getD acc.1 0 :: acc.2))
          init).1 < K ∧
       ∀ x ∈ (psis.foldr (fun row acc => (row.getD acc.1 0, row.getD acc.1 0 :: acc.2))
          init).2, x < K) := by
  induction psis with
  | nil =>
    intro init h1 h2 _
    exact ⟨h1, h2⟩
  | cons r rs ih =>
    intro init h1 h2 hall
    have hMid := ih init h1 h2 (fun row hrow => hall row (by simp [hrow]))
    simp only [List.foldr_cons]
    constructor
    · exact hall r (by simp) _
    · intro x hx
      rcases List.mem_cons.mp hx with hx | hx
      · rw [hx]; exact hall r (by simp) _
      · exact hMid.2 x hx

theorem backtrack_mem_lt (psis : List (List ℕ)) (last : ℕ) (K : ℕ)
    (hlast : last < K) (hrows : ∀ row ∈ psis, ∀ i : ℕ, row.getD i 0 < K) :
    ∀ x ∈ backtrack psis last, x < K := by
  unfold backtrack
  exact (backtrack_foldr_lt K psis (last, [last]) hlast
    (by simpa using hlast) hrows).2

theorem viterbi_length (K : ℕ) (hK : 0 < K) (lpi : ℕ → ℚ) (la : ℕ → ℕ → ℚ)
    (lb : List ℚ → ℕ → ℚ) (obs : List (List ℚ)) :
    (viterbi K lpi la lb obs).length = obs.length := by
  cases obs with
  | nil => rfl
  | cons o rest =>
    show (backtrack (viterbiForward K la lb
      ((List.range K).map (fun k => lpi k + lb o k), []) rest).2 _).length = _
    rw [backtrack_length]
    have := (viterbiForward_spec K hK la lb rest
      ((List.range K).map (fun k => lpi k + lb o k), []) (by simp)).2.1
    rw [this]
    simp

theorem viterbi_mem_lt (K : ℕ) (hK : 0 < K) (lpi : ℕ → ℚ) (la : ℕ → ℕ → ℚ)
    (lb : List ℚ → ℕ → ℚ) (obs : List (List ℚ)) :
    ∀ x ∈ viterbi K lpi la lb obs, x < K := by
  cases obs with
  | nil => intro x hx; exact absurd hx (by simp [viterbi])
  | cons o rest =>
    intro x hx
    have hspec := viterbiForward_spec K hK la lb rest
      ((List.range K).map (fun k => lpi k + lb o k), []) (by simp)
    have hd : (viterbiForward K la lb
        ((List.range K).map (fun k => lpi k + lb o k), []) rest).1.length = K := by
      rcases hspec.1 with h | h
      · exact h
      · subst h
        simp [viterbiForward]
    apply backtrack_mem_lt _ _ K _ hspec.2.2 x hx
    have := argmaxIdx_lt (viterbiForward K la lb
      ((List.range K).map (fun k => lpi k + lb o k), []) rest).1 (by rw [hd]; exact hK)
    rwa [hd] at this

theorem length_predictScaledMatrix (s : Scaler) (data : List FeatureRow) :
    (predictScaledMatrix s data).length = data.length := by
  simp [predictScaledMatrix, transformScaler, matrixQ, matrixOf]

theorem predict_states_eq_ok (lpi : GaussianHMM → ℕ → ℚ)
    (la : GaussianHMM → ℕ → ℕ → ℚ) (lb : GaussianHMM → List ℚ → ℕ → ℚ)
    (model : GaussianHMM) (data : List FeatureRow) (s : Scaler)
    (hfin : hasNanOrInf (matrixOf data) = false) (hne : data ≠ []) :
    predict_states lpi la lb model data s =
      .ok (viterbi model.nComponents (lpi model) (la model) (lb model)
        (predictScaledMatrix s data)) := by
  simp only [predict_states]
  rw [if_neg (by simp [hfin]), if_neg (by rw [length_matrixOf]; simpa using hne)]

/-! ### The claims -/

/-- C1, counterexample: `csVolZero` has only finite OHLCV cells, yet the
feature table produced by `load_and_preprocess_data` (which drops NaN but
not infinities) contains an infinity in `Volume_Change`, because a finite
zero volume at index 24 makes `volume.pct_change()` infinite at index 25.
The row count happens to equal `N - 24` here, but the no-NaN/Infinity
part of the claim is false. -/
theorem C1_counterexample :
    load_and_preprocess_data id (frameOfCandles csVolZero) =
      .ok (featureTableOf id csVolZero) ∧
    (featureTableOf id csVolZero).length = csVolZero.length - 24 ∧
    (featureTableOf id csVolZero).any (fun r => r.vchg.isInf) = true :=
  ⟨load_frameOfCandles id csVolZero, by decide, by decide⟩

/-- C1 (amended): for every candle table in which all OHLCV cells are
finite and every `close` and `volume` cell is nonzero,
`load_and_preprocess_data` succeeds, the feature table contains no NaN
and no infinity in `Returns`, `Volatility` or `Volume_Change` (all three
are finite in every row), and it has exactly `N - 24` rows. -/
theorem C1_feature_table_finite_and_length (sq : ℚ → ℚ) (cs : List Candle)
    (hc : ∀ c ∈ cs, c.close ≠ 0) (hv : ∀ c ∈ cs, c.volume ≠ 0) :
    load_and_preprocess_data sq (frameOfCandles cs) = .ok (featureTableOf sq cs) ∧
    (featureTableOf sq cs).length = cs.length - 24 ∧
    ∀ r ∈ featureTableOf sq cs,
      r.ret.isFinite = true ∧ r.vol.isFinite = true ∧ r.vchg.isFinite = true :=
  ⟨load_frameOfCandles sq cs, featureTableOf_length sq cs hc hv,
    mem_featureTableOf_finite sq cs hc hv⟩

/-- C1, witness: the amended claim evaluated on 25 constant candles. -/
theorem C1_witness :
    load_and_preprocess_data id (frameOfCandles (csConst 25)) =
      .ok (featureTableOf id (csConst 25)) ∧
    (featureTableOf id (csConst 25)).length = (csConst 25).length - 24 ∧
    ∀ r ∈ featureTableOf id (csConst 25),
      r.ret.isFinite = true ∧ r.vol.isFinite = true ∧ r.vchg.isFinite = true :=
  C1_feature_table_finite_and_length id (csConst 25) (by decide) (by decide)

/-- C2: at every row index where the value is defined (finite), the
derived features satisfy the specification's formulas:
`Returns[t] = close[t]/close[t-1] - 1` (NaN at `t = 0`),
`Volatility[t]` is the sample standard deviation of `Returns` over the
trailing window of the 24 most recent samples ending at `t` (NaN for
`t < 24`, i.e. until 24 valid returns are available), and
`Volume_Change[t] = volume[t]/volume[t-1] - 1` (NaN at `t = 0`). -/
theorem C2_derived_feature_formulas (sq : ℚ → ℚ) (cs : List Candle) :
    (∀ t : ℕ, 0 < t → t < cs.length → closeAt cs (t - 1) ≠ 0 →
      ((preDropRows sq cs).getD t default).ret = .num (specReturn cs t)) ∧
    (0 < cs.length → ((preDropRows sq cs).getD 0 default).ret = .nan) ∧
    (∀ t : ℕ, 24 ≤ t → t < cs.length → (∀ i, i < t → closeAt cs i ≠ 0) →
      ((preDropRows sq cs).getD t default).vol = .num (specVolatility sq cs t)) ∧
    (∀ t : ℕ, t < 24 → t < cs.length →
      ((preDropRows sq cs).getD t default).vol = .nan) ∧
    (∀ t : ℕ, 0 < t → t < cs.length → volumeAt cs (t - 1) ≠ 0 →
      ((preDropRows sq cs).getD t default).vchg = .num (specVolumeChange cs t)) ∧
    (0 < cs.length → ((preDropRows sq cs).getD 0 default).vchg = .nan) :=
  ⟨fun _ h1 ht hne => preDrop_ret sq cs h1 ht hne default,
   fun h => preDrop_ret_nan sq cs h default,
   fun _ h24 ht hc => preDrop_vol_num sq cs h24 ht hc default,
   fun _ h24 ht => preDrop_vol_nan sq cs h24 ht default,
   fun _ h1 ht hne => preDrop_vchg sq cs h1 ht hne default,
   fun h => preDrop_vchg_nan sq cs h default⟩

/-- C2, witness: the formulas evaluated on a concrete 26-candle table at
rows 24, 23 and 0. -/
theorem C2_witness :
    ((preDropRows id csConstVol).getD 24 default).ret =
      .num (specReturn csConstVol 24) ∧
    ((preDropRows id csConstVol).getD 0 default).ret = .nan ∧
    ((preDropRows id csConstVol).getD 24 default).vol =
      .num (specVolatility id csConstVol 24) ∧
    ((preDropRows id csConstVol).getD 23 default).vol = .nan ∧
    ((preDropRows id csConstVol).getD 24 default).vchg =
      .num (specVolumeChange csConstVol 24) ∧
    ((preDropRows id csConstVol).getD 0 default).vchg = .nan :=
  ⟨(C2_derived_feature_formulas id csConstVol).1 24 (by decide) (by decide) (by decide),
   (C2_derived_feature_formulas id csConstVol).2.1 (by decide),
   (C2_derived_feature_formulas id csConstVol).2.2.1 24 (by decide) (by decide)
     (by decide),
   (C2_derived_feature_formulas id csConstVol).2.2.2.1 23 (by decide) (by decide),
   (C2_derived_feature_formulas id csConstVol).2.2.2.2.1 24 (by decide) (by decide)
     (by decide),
   (C2_derived_feature_formulas id csConstVol).2.2.2.2.2 (by decide)⟩

/-- C3: whenever `train_hmm` returns a `(model, scaler)` pair for a
feature table, the scaler is exactly the one fitted inside `train_hmm`
on that table, the standardized matrix `predict_states` computes with it
equals the standardized matrix the model was fitted on, and the model is
the fit of precisely that matrix. -/
theorem C3_scaler_retained (sq : ℚ → ℚ) (fit : List (List ℚ) → ℕ → ℕ → GaussianHMM)
    (data : List FeatureRow) (K : ℕ) (m : GaussianHMM) (s : Scaler)
    (h : train_hmm sq fit data K = .ok (m, s)) :
    s = fitScaler sq (matrixQ data) ∧
    predictScaledMatrix s data = trainScaledMatrix sq data ∧
    m = fit (trainScaledMatrix sq data) K 42 := by
  obtain ⟨hm, hs⟩ := train_hmm_ok_inv sq fit data K m s h
  refine ⟨hs, ?_, hm⟩
  rw [hs]
  rfl

/-- C3, witness: the retained-scaler property evaluated on a concrete
feature table. -/
theorem C3_witness :
    fitScaler id (matrixQ (featureTableOf id (csConst 28))) =
      fitScaler id (matrixQ (featureTableOf id (csConst 28))) ∧
    predictScaledMatrix (fitScaler id (matrixQ (featureTableOf id (csConst 28))))
        (featureTableOf id (csConst 28)) =
      trainScaledMatrix id (featureTableOf id (csConst 28)) ∧
    trivialFit (trainScaledMatrix id (featureTableOf id (csConst 28))) 4 42 =
      trivialFit (trainScaledMatrix id (featureTableOf id (csConst 28))) 4 42 :=
  C3_scaler_retained id trivialFit (featureTableOf id (csConst 28)) 4 _ _ (by rfl)

/-- C4: fitting is deterministic — two runs of `train_hmm` on the same
data with the same (seed-fixed) configuration return identical
transition matrices, identical per-state means and covariances, and
identical scalers. -/
theorem C4_fit_deterministic (sq : ℚ → ℚ) (fit : List (List ℚ) → ℕ → ℕ → GaussianHMM)
    (data : List FeatureRow) (K : ℕ) (m1 m2 : GaussianHMM) (s1 s2 : Scaler)
    (h1 : train_hmm sq fit data K = .ok (m1, s1))
    (h2 : train_hmm sq fit data K = .ok (m2, s2)) :
    m1.transmat = m2.transmat ∧ m1.means = m2.means ∧
    m1.covars = m2.covars ∧ s1 = s2 := by
  obtain ⟨hm1, hs1⟩ := train_hmm_ok_inv sq fit data K m1 s1 h1
  obtain ⟨hm2, hs2⟩ := train_hmm_ok_inv sq fit data K m2 s2 h2
  subst hm1; subst hs1; subst hm2; subst hs2
  exact ⟨rfl, rfl, rfl, rfl⟩

/-- C4, witness: determinism evaluated on a concrete feature table. -/
theorem C4_witness :
    (trivialFit (trainScaledMatrix id (featureTableOf id (csConst 28))) 4 42).transmat =
      (trivialFit (trainScaledMatrix id (featureTableOf id (csConst 28))) 4 42).transmat ∧
    (trivialFit (trainScaledMatrix id (featureTableOf id (csConst 28))) 4 42).means =
      (trivialFit (trainScaledMatrix id (featureTableOf id (csConst 28))) 4 42).means ∧
    (trivialFit (trainScaledMatrix id (featureTableOf id (csConst 28))) 4 42).covars =
      (trivialFit (trainScaledMatrix id (featureTableOf id (csConst 28))) 4 42).covars ∧
    fitScaler id (matrixQ (featureTableOf id (csConst 28))) =
      fitScaler id (matrixQ (featureTableOf id (csConst 28))) :=
  C4_fit_deterministic id trivialFit (featureTableOf id (csConst 28)) 4 _ _ _ _
    (by rfl) (by rfl)

/-- C5: `train_hmm` raises the NaN/Infinity `ValueError` (the
specification's `InvalidInputError`) exactly when the feature matrix
contains a NaN or an infinity — the check runs before scaling and
fitting, and a finite matrix never triggers it. -/
theorem C5_invalid_input_check (sq : ℚ → ℚ)
    (fit : List (List ℚ) → ℕ → ℕ → GaussianHMM) (data : List FeatureRow) (K : ℕ) :
    (hasNanOrInf (matrixOf data) = true →
      train_hmm sq fit data K = .error .nanValues) ∧
    (hasNanOrInf (matrixOf data) = false →
      train_hmm sq fit data K ≠ .error .nanValues) :=
  ⟨fun h => train_hmm_nan sq fit data K h,
   fun h => train_hmm_not_nan sq fit data K h⟩

/-- C5, witness: the check evaluated on a table with a NaN and on a
finite table. -/
theorem C5_witness :
    train_hmm id trivialFit dataWithNan 4 = .error .nanValues ∧
    train_hmm id trivialFit (featureTableOf id csConstVol) 4 ≠ .error .nanValues :=
  ⟨(C5_invalid_input_check id trivialFit dataWithNan 4).1 (by decide),
   (C5_invalid_input_check id trivialFit (featureTableOf id csConstVol) 4).2
     (by decide)⟩

theorem mapField_getD_eq {f : Candle → ℚ} {v : ℚ} (cs : List Candle)
    (h : ∀ c ∈ cs, f c = v) {i : ℕ} (hi : i < cs.length) :
    (cs.map f).getD i 0 = v := by
  have hi' : i < (cs.map f).length := by simpa using hi
  rw [List.getD_eq_getElem _ _ hi', List.getElem_map]
  exact h _ (List.getElem_mem hi)

theorem colVar_of_const (X : List (List ℚ)) (j : ℕ) (v : ℚ) (hne : 0 < X.length)
    (h : ∀ r ∈ X, r.getD j 0 = v) : colVar X j = 0 := by
  have hvals : colVals X j = List.replicate X.length v := by
    rw [List.eq_replicate_iff]
    refine ⟨by simp [colVals], ?_⟩
    intro b hb
    obtain ⟨r, hr, rfl⟩ := List.mem_map.mp hb
    exact h r hr
  have hn : (X.length : ℚ) ≠ 0 := Nat.cast_ne_zero.mpr (by omega)
  have hmean : colMean X j = v := by
    unfold colMean
    rw [hvals, List.sum_replicate, nsmul_eq_mul, mul_comm, mul_div_assoc,
      div_self hn, mul_one]
  unfold colVar
  simp only [hmean]
  rw [hvals, List.map_replicate]
  have hz : (v - v) ^ 2 = 0 := by rw [sub_self]; norm_num
  rw [hz, List.sum_replicate, smul_zero, zero_div]

theorem matrixQ_row_length (data : List FeatureRow) (hne : data ≠ []) :
    ((matrixQ data).getD 0 []).length = 3 := by
  cases data with
  | nil => exact absurd rfl hne
  | cons r rest => rfl

theorem vchg_zero_of_const_volume (sq : ℚ → ℚ) (cs : List Candle) (v : ℚ)
    (hv0 : v ≠ 0) (hc : ∀ c ∈ cs, c.close ≠ 0) (hvol : ∀ c ∈ cs, c.volume = v) :
    ∀ row ∈ matrixQ (featureTableOf sq cs), row.getD 2 0 = 0 := by
  have hv : ∀ c ∈ cs, c.volume ≠ 0 := fun c hmem => by
    rw [hvol c hmem]; exact hv0
  have hvAt : ∀ {i : ℕ}, i < cs.length → volumeAt cs i = v := fun hi =>
    mapField_getD_eq cs hvol hi
  intro row hrow
  have hrow' : row ∈ (featureTableOf sq cs).map
      (fun r => [r.ret.toQ, r.vol.toQ, r.vchg.toQ]) := by
    simpa [matrixQ, matrixOf, List.map_map, Function.comp] using hrow
  obtain ⟨r, hr, rfl⟩ := List.mem_map.mp hrow'
  show r.vchg.toQ = 0
  unfold featureTableOf dropnaTable at hr
  obtain ⟨hmem, hkeep⟩ := List.mem_filter.mp hr
  obtain ⟨t, htl, rfl⟩ := List.mem_iff_getElem.mp hmem
  have ht : t < cs.length := by rwa [length_preDropRows] at htl
  rw [← List.getD_eq_getElem _ default htl] at hkeep ⊢
  by_cases h24 : 24 ≤ t
  · have hne1 : volumeAt cs (t - 1) ≠ 0 := by
      rw [hvAt (by omega)]
      exact hv0
    rw [preDrop_vchg sq cs (by omega) ht hne1 default]
    show specVolumeChange cs t = 0
    unfold specVolumeChange
    rw [hvAt ht, hvAt (by omega)]
    rw [div_self hv0, sub_self]
  · exfalso
    rw [keepRow_preDrop sq cs hc hv ht default] at hkeep
    simp [h24] at hkeep

theorem colVar2_of_const_volume (sq : ℚ → ℚ) (cs : List Candle) (v : ℚ)
    (hv0 : v ≠ 0) (hc : ∀ c ∈ cs, c.close ≠ 0) (hvol : ∀ c ∈ cs, c.volume = v)
    (hlen : 0 < cs.length - 24) :
    colVar (matrixQ (featureTableOf sq cs)) 2 = 0 := by
  have hv : ∀ c ∈ cs, c.volume ≠ 0 := fun c hmem => by
    rw [hvol c hmem]; exact hv0
  apply colVar_of_const _ 2 0 _ (vchg_zero_of_const_volume sq cs v hv0 hc hvol)
  have h1 : (matrixQ (featureTableOf sq cs)).length =
      (featureTableOf sq cs).length := by
    simp [matrixQ, matrixOf]
  rw [h1, featureTableOf_length sq cs hc hv]
  exact hlen

theorem colVar2_csConstVol : colVar (matrixQ (featureTableOf id csConstVol)) 2 = 0 :=
  colVar2_of_const_volume id csConstVol 5 (by norm_num) (by decide) (by decide)
    (by decide)

theorem colVar2_csConst28 :
    colVar (matrixQ (featureTableOf id (csConst 28))) 2 = 0 :=
  colVar2_of_const_volume id (csConst 28) 1 (by norm_num) (by decide) (by decide)
    (by decide)

/-- C6, counterexample: on the constant-volume input `csConstVol` the
`Volume_Change` column (index 2) of the feature table has zero variance,
yet no `DegenerateFeatureError` is raised — no such error exists in the
code.  The Normalizer succeeds, silently mapping the zero variance to
scale `1`; the only failure of the run is `GaussianHMM.fit`'s KMeans
sample-count `ValueError` (here 2 rows < 4 components), which is about
sample count, not variance. -/
theorem C6_counterexample :
    colVar (matrixQ (featureTableOf id csConstVol)) 2 = 0 ∧
    (fitScaler id (matrixQ (featureTableOf id csConstVol))).scale.getD 2 0 = 1 ∧
    train_hmm id trivialFit (featureTableOf id csConstVol) 4 =
      .error .kmeansSmallSample :=
  ⟨colVar2_csConstVol,
   fitScaler_scale_of_zero_var id _
     (by rw [matrixQ_row_length _ (by decide)]; norm_num) colVar2_csConstVol,
   rfl⟩

/-- C6 (amended): the Normalizer never fails on a zero-variance column:
for every finite feature table with at least `n_components` rows (so the
KMeans means-initialization inside the later fit is satisfiable) in
which some feature column `j` has zero variance, `train_hmm` succeeds,
with the fitted scaler's scale for column `j` equal to `1` (sklearn
`_handle_zeros_in_scale`) — the column is centred, not divided by
zero. -/
theorem C6_zero_variance_no_error (sq : ℚ → ℚ)
    (fit : List (List ℚ) → ℕ → ℕ → GaussianHMM) (data : List FeatureRow)
    (K : ℕ) (j : ℕ) (hfin : hasNanOrInf (matrixOf data) = false)
    (hne : data ≠ []) (hK : K ≤ data.length)
    (hj : j < ((matrixQ data).getD 0 []).length)
    (hvar : colVar (matrixQ data) j = 0) :
    train_hmm sq fit data K =
      .ok (fit (trainScaledMatrix sq data) K 42, fitScaler sq (matrixQ data)) ∧
    (fitScaler sq (matrixQ data)).scale.getD j 0 = 1 :=
  ⟨train_hmm_eq_ok sq fit data K hfin hne hK,
   fitScaler_scale_of_zero_var sq _ hj hvar⟩

/-- C6, witness: the amended claim evaluated on 28 constant candles
(4 feature rows, zero-variance `Volume_Change`). -/
theorem C6_witness :
    train_hmm id trivialFit (featureTableOf id (csConst 28)) 4 =
      .ok (trivialFit (trainScaledMatrix id (featureTableOf id (csConst 28))) 4 42,
           fitScaler id (matrixQ (featureTableOf id (csConst 28)))) ∧
    (fitScaler id (matrixQ (featureTableOf id (csConst 28)))).scale.getD 2 0 = 1 :=
  C6_zero_variance_no_error id trivialFit (featureTableOf id (csConst 28)) 4 2
    (by decide) (by decide) (by decide)
    (by rw [matrixQ_row_length _ (by decide)]; norm_num) colVar2_csConst28

/-- C7, counterexample: on an input of exactly 24 candle rows the
feature engine does NOT fail — `load_and_preprocess_data` succeeds and
returns the empty feature table; the failure only happens later, in
`train_hmm`, where the scaler rejects a zero-sample matrix (a sklearn
`ValueError`, not a dedicated `InsufficientDataError`). -/
theorem C7_counterexample :
    load_and_preprocess_data id (frameOfCandles (csConst 24)) = .ok [] ∧
    train_hmm id trivialFit ([] : List FeatureRow) 4 = .error .zeroSamples :=
  ⟨rfl, rfl⟩

/-- C7 (amended): an input of exactly 24 candle rows yields an empty
feature table from `load_and_preprocess_data` without any error, and for
every input whose loaded feature table is empty the subsequent
`train_hmm` stage fails with the scaler's zero-sample error. -/
theorem C7_empty_table_behavior (sq : ℚ → ℚ)
    (fit : List (List ℚ) → ℕ → ℕ → GaussianHMM) (K : ℕ) (cs : List Candle)
    (h24 : cs.length = 24) (f : RawFrame) (tbl : List FeatureRow)
    (hload : load_and_preprocess_data sq f = .ok tbl) (hempty : tbl = []) :
    load_and_preprocess_data sq (frameOfCandles cs) = .ok [] ∧
    train_hmm sq fit tbl K = .error .zeroSamples := by
  constructor
  · rw [load_frameOfCandles, featureTableOf_eq_nil sq cs (by omega)]
  · rw [hempty]
    exact train_hmm_nil sq fit K

/-- C7, witness: the amended claim evaluated on 24 constant candles. -/
theorem C7_witness :
    load_and_preprocess_data id (frameOfCandles (csConst 24)) = .ok [] ∧
    train_hmm id trivialFit ([] : List FeatureRow) 4 = .error .zeroSamples :=
  C7_empty_table_behavior id trivialFit 4 (csConst 24) (by decide)
    (frameOfCandles (csConst 24)) [] (by rfl) rfl

/-- C8, counterexample: a frame lacking the `open`, `high` and `low`
columns loads successfully — `load_and_preprocess_data` never accesses
them, so a missing OHLCV column does not in general abort the run, and
no dedicated `DataFormatError` exists. -/
theorem C8_counterexample :
    load_and_preprocess_data id frameNoOpen = .ok [] := rfl

/-- C8 (amended): only the three accessed columns are required, each
failing with a Python `KeyError` at its access site: a missing
`datetime` fails in the loader before feature engineering, while a
missing `close` or `volume` fails at the corresponding feature
derivation; `open`, `high` and `low` are never required. -/
theorem C8_missing_column_keyerrors (sq : ℚ → ℚ) (f : RawFrame) :
    ("datetime" ∉ f.cols →
      load_and_preprocess_data sq f = .error (.keyError "datetime")) ∧
    ("datetime" ∈ f.cols → "close" ∉ f.cols →
      load_and_preprocess_data sq f = .error (.keyError "close")) ∧
    ("datetime" ∈ f.cols → "close" ∈ f.cols → "volume" ∉ f.cols →
      load_and_preprocess_data sq f = .error (.keyError "volume")) := by
  refine ⟨?_, ?_, ?_⟩
  · intro h1
    simp only [load_and_preprocess_data, getColumn]
    rw [if_neg h1]
    rfl
  · intro h1 h2
    simp only [load_and_preprocess_data, getColumn]
    rw [if_pos h1, if_neg h2]
    rfl
  · intro h1 h2 h3
    simp only [load_and_preprocess_data, getColumn]
    rw [if_pos h1, if_pos h2, if_neg h3]
    rfl

/-- C8, witness: the three `KeyError` cases evaluated on concrete
frames. -/
theorem C8_witness :
    load_and_preprocess_data id frameNoDatetime = .error (.keyError "datetime") ∧
    load_and_preprocess_data id frameNoClose = .error (.keyError "close") ∧
    load_and_preprocess_data id frameNoVolume = .error (.keyError "volume") :=
  ⟨(C8_missing_column_keyerrors id frameNoDatetime).1 (by decide),
   (C8_missing_column_keyerrors id frameNoClose).2.1 (by decide) (by decide),
   (C8_missing_column_keyerrors id frameNoVolume).2.2 (by decide) (by decide)
     (by decide)⟩

/-- C9, counterexample: on the empty feature table (`n = 0`)
`predict_states` does not return a length-0 state sequence — it fails
with the scaler's zero-sample error. -/
theorem C9_counterexample :
    predict_states (fun _ _ => 0) (fun _ _ _ => 0) (fun _ _ _ => 0)
      (trivialFit [] 4 42) [] { mean := [], scale := [] } = .error .zeroSamples := rfl

/-- C9 (amended): for every fitted model with `K > 0` states and every
NONEMPTY feature table with finite feature values, `predict_states`
succeeds and the decoded state sequence has exactly one entry per
feature row (aligned by position) with every entry in `[0, K)`. -/
theorem C9_states_aligned (lpi : GaussianHMM → ℕ → ℚ)
    (la : GaussianHMM → ℕ → ℕ → ℚ) (lb : GaussianHMM → List ℚ → ℕ → ℚ)
    (model : GaussianHMM) (data : List FeatureRow) (s : Scaler)
    (hK : 0 < model.nComponents) (hne : data ≠ [])
    (hfin : hasNanOrInf (matrixOf data) = false) :
    ∃ sts, predict_states lpi la lb model data s = .ok sts ∧
      sts.length = data.length ∧ ∀ x ∈ sts, x < model.nComponents := by
  refine ⟨_, predict_states_eq_ok lpi la lb model data s hfin hne, ?_, ?_⟩
  · rw [viterbi_length _ hK, length_predictScaledMatrix]
  · exact viterbi_mem_lt _ hK _ _ _ _

/-- C9, witness: decoding evaluated on a concrete two-row feature table
with a concrete 4-state model. -/
theorem C9_witness :
    ∃ sts, predict_states (fun _ _ => 0) (fun _ _ _ => 0) (fun _ _ _ => 0)
        (trivialFit [] 4 42) (featureTableOf id csConstVol)
        { mean := [0, 0, 0], scale := [1, 1, 1] } = .ok sts ∧
      sts.length = (featureTableOf id csConstVol).length ∧
      ∀ x ∈ sts, x < (trivialFit [] 4 42).nComponents :=
  C9_states_aligned (fun _ _ => 0) (fun _ _ _ => 0) (fun _ _ _ => 0)
    (trivialFit [] 4 42) (featureTableOf id csConstVol)
    { mean := [0, 0, 0], scale := [1, 1, 1] } (by decide) (by decide) (by decide)

/-- C10: `analyze_states` and `plot_results` are not functions of their
declared `(data, states)` arguments alone — they read the state count
from the ambient global `model` (an extra input in this embedding), and
two calls with identical `(data, states)` but different ambient models
produce different outputs. -/
theorem C10_global_model_dependence :
    analyze_states (trivialFit [] 1 42) [] [] ≠
      analyze_states (trivialFit [] 2 42) [] [] ∧
    plot_results (trivialFit [] 1 42) [] [] ≠
      plot_results (trivialFit [] 2 42) [] [] := by
  refine ⟨?_, ?_⟩ <;> decide
